import Mathlib

/-
Verification development for the file-encryption CLI in src/app.js.

The program parses two positional arguments (action, input path) and two
options (output path, key), then dispatches:
  encrypt: read input file, AES-encrypt with the passphrase, write ciphertext;
  decrypt: read input file, AES-decrypt with the passphrase, write plaintext;
wrapped in a try/catch that prints a trace plus a failure line and leaves the
exit code 0.  A wrong positional count prints usage and exits 1; an unknown
action prints a message plus usage and exits 0.

File contents, plaintexts and ciphertexts are modelled as byte lists
(List Nat); paths, the action and keys are Lean String values, as in the
JavaScript source.  The filesystem is a shadowing association list from paths
to contents.  Console output is modelled as a list of tagged message events,
and the single nondeterministic input of the cipher (its random salt) and the
possibility of a write failure are passed as explicit parameters.
-/

namespace CryptoCli

/-- Modelled from the spec: the cipher is `cryptoJs.AES.encrypt/decrypt`, a
third-party library whose code is not in src/.  Per spec section 4.1 the
construction internally manages a salt, embeds it in the output so that
decryption needs no separate parameter channel, and performs no
authentication.  The model derives a keystream from a hash of the key and a
hash of the salt bytes; `byteHash` is that 32-bit accumulating hash. -/
def byteHash (bs : List Nat) : Nat :=
  bs.foldl (fun a b => (a * 31 + b) % 4294967296) 7

/-- Modelled from the spec: the 8 salt bytes the cipher embeds at the head of
its output (crypto-js uses an 8-byte salt in its OpenSSL-compatible format). -/
def saltBytes (salt : Nat) : List Nat :=
  [salt % 256, salt / 256 % 256, salt / 65536 % 256, salt / 16777216 % 256,
   salt / 4294967296 % 256, salt / 1099511627776 % 256,
   salt / 281474976710656 % 256, salt / 72057594037927936 % 256]

/-- Modelled from the spec: one keystream byte generated from a seed hash. -/
def streamByte (seed i : Nat) : Nat :=
  (seed * 2654435761 + i * 40503 + 97) % 256

/-- Modelled from the spec: the keystream of length `n` derived from the
passphrase bytes and the salt bytes. -/
def keystream (key saltB : List Nat) (n : Nat) : List Nat :=
  (List.range n).map (fun i => streamByte (byteHash key) i ^^^ streamByte (byteHash saltB) i)

/-- Modelled from the spec: `cryptoJs.AES.encrypt(data, key).toString()`.
The salt is embedded at the head of the ciphertext; the body is the data
combined with the key-and-salt keystream.  No authentication tag is added. -/
def aesEncrypt (data key : List Nat) (salt : Nat) : List Nat :=
  saltBytes salt ++ List.zipWith (fun a b => a ^^^ b) data (keystream key (saltBytes salt) data.length)

/-- Modelled from the spec: `cryptoJs.AES.decrypt(data, key).toString(enc.Utf8)`.
It recovers the salt from the head of the ciphertext and reverses the
keystream combination; with a wrong key the result is garbled text and no
integrity error is raised. -/
def aesDecrypt (ct key : List Nat) : List Nat :=
  List.zipWith (fun a b => a ^^^ b) (ct.drop 8) (keystream key (ct.take 8) (ct.drop 8).length)

/-- Bytes of a key string, as passed to the cipher. -/
def keyBytes (s : String) : List Nat := s.data.map Char.toNat

/-- The filesystem: a shadowing association list from paths to byte contents. -/
abbrev FS := List (String × List Nat)

/-- `fs.promises.readFile`: `none` models a thrown I/O error (missing file). -/
def fsRead (fs : FS) (p : String) : Option (List Nat) :=
  fs.lookup p

/-- `fs.promises.writeFile`: create or overwrite the file at `p`. -/
def fsWrite (fs : FS) (p : String) (c : List Nat) : FS :=
  (p, c) :: fs

/-- `encryptFile` from src/app.js lines 13-17: read the input file, encrypt
its data with the key, write the result to the output path.  `none` models a
thrown error: a failed read, or (when `writeFails` is set) a failed write;
on `none` the filesystem is unchanged. -/
def encryptFile (fs : FS) (inputFilePath key outputFilePath : String)
    (salt : Nat) (writeFails : Bool) : Option FS :=
  match fsRead fs inputFilePath with
  | none => none
  | some inputFileData =>
    let encryptedData := aesEncrypt inputFileData (keyBytes key) salt
    if writeFails then none else some (fsWrite fs outputFilePath encryptedData)

/-- `decryptFile` from src/app.js lines 26-30: read the input file, decrypt
its data with the key, write the result to the output path. -/
def decryptFile (fs : FS) (inputFilePath key outputFilePath : String)
    (writeFails : Bool) : Option FS :=
  match fsRead fs inputFilePath with
  | none => none
  | some inputFileData =>
    let decryptedData := aesDecrypt inputFileData (keyBytes key)
    if writeFails then none else some (fsWrite fs outputFilePath decryptedData)

/-- Which console stream a message goes to (`console.log` to stdout;
`console.trace` and `console.error` to stderr). -/
inductive StreamTag : Type
  | stdout
  | stderr
deriving DecidableEq

/-- The console messages the program can print, abstracted from their
format strings. -/
inductive Msg : Type
  | usageMsg
  | successEncrypt (inputFilePath outputFilePath : String)
  | failEncrypt (inputFilePath : String)
  | successDecrypt (inputFilePath outputFilePath : String)
  | failDecrypt (inputFilePath : String)
  | traceMsg
  | unknownAction (action : String)
deriving DecidableEq

/-- Which of the two file operations an invocation performed. -/
inductive OpKind : Type
  | encryptOp
  | decryptOp
deriving DecidableEq

/-- Observable outcome of one invocation: final filesystem, console events in
order, exit code, the paths whose read was attempted, and which file
operations were invoked. -/
structure RunResult : Type where
  fs : FS
  events : List (StreamTag × Msg)
  exitCode : Nat
  reads : List String
  ops : List OpKind
deriving DecidableEq

/-- The top-level script of src/app.js lines 58-94, after argument parsing:
`positionals` are the positional arguments, `optOutput` and `optKey` the
parsed option values.  A positional count other than 2 prints usage and exits
with code 1; otherwise the action dispatches to `encryptFile` or
`decryptFile` (with action-dependent default output path and default key
`mySecretKey`), printing a success line, or a trace plus a failure line when
the operation throws; an unknown action prints a message plus usage.  Only
the argument-count branch changes the exit code. -/
def runApp (positionals : List String) (optOutput optKey : Option String)
    (fs : FS) (salt : Nat) (writeFails : Bool) : RunResult :=
  match positionals with
  | [action, inputFilePath] =>
    let encryptionKey := optKey.getD "mySecretKey"
    if action = "encrypt" then
      let outputFilePath := optOutput.getD (inputFilePath ++ ".enc")
      match encryptFile fs inputFilePath encryptionKey outputFilePath salt writeFails with
      | some fs' =>
        ⟨fs', [(StreamTag.stdout, Msg.successEncrypt inputFilePath outputFilePath)], 0,
          [inputFilePath], [OpKind.encryptOp]⟩
      | none =>
        ⟨fs, [(StreamTag.stderr, Msg.traceMsg), (StreamTag.stderr, Msg.failEncrypt inputFilePath)],
          0, [inputFilePath], [OpKind.encryptOp]⟩
    else if action = "decrypt" then
      let outputFilePath := optOutput.getD (inputFilePath ++ ".txt")
      match decryptFile fs inputFilePath encryptionKey outputFilePath writeFails with
      | some fs' =>
        ⟨fs', [(StreamTag.stdout, Msg.successDecrypt inputFilePath outputFilePath)], 0,
          [inputFilePath], [OpKind.decryptOp]⟩
      | none =>
        ⟨fs, [(StreamTag.stderr, Msg.traceMsg), (StreamTag.stderr, Msg.failDecrypt inputFilePath)],
          0, [inputFilePath], [OpKind.decryptOp]⟩
    else
      ⟨fs, [(StreamTag.stdout, Msg.unknownAction action), (StreamTag.stdout, Msg.usageMsg)], 0,
        [], []⟩
  | _ =>
    ⟨fs, [(StreamTag.stdout, Msg.usageMsg)], 1, [], []⟩

lemma length_keystream (key saltB : List Nat) (n : Nat) :
    (keystream key saltB n).length = n := by
  simp [keystream]

lemma zipWith_xor_cancel : ∀ (p ks : List Nat), ks.length = p.length →
    List.zipWith (fun a b => a ^^^ b) (List.zipWith (fun a b => a ^^^ b) p ks) ks = p
  | [], _, _ => by simp
  | _ :: _, [], h => by simp at h
  | a :: p, k :: ks, h => by
    simp only [List.zipWith_cons_cons]
    refine congrArg₂ List.cons (Nat.xor_cancel_right k a) (zipWith_xor_cancel p ks ?_)
    simpa using h

lemma aes_roundtrip (data key : List Nat) (salt : Nat) :
    aesDecrypt (aesEncrypt data key salt) key = data := by
  have h8 : (saltBytes salt).length = 8 := rfl
  unfold aesEncrypt aesDecrypt
  rw [show (8 : Nat) = (saltBytes salt).length from h8.symm, List.take_left, List.drop_left]
  have hlen : (List.zipWith (fun a b => a ^^^ b) data
      (keystream key (saltBytes salt) data.length)).length = data.length := by
    simp [List.length_zipWith, length_keystream]
  rw [hlen]
  exact zipWith_xor_cancel data _ (length_keystream key (saltBytes salt) data.length)

lemma xor_mix (b c g : Nat) : (b ^^^ g) ^^^ (c ^^^ g) = b ^^^ c := by
  rw [Nat.xor_comm c g, ← Nat.xor_assoc, Nat.xor_assoc b g g, Nat.xor_self, Nat.xor_zero]

lemma xor_eq_self_imp {a x : Nat} (h : a ^^^ x = a) : x = 0 := by
  have h2 : a ^^^ (a ^^^ x) = a ^^^ a := by rw [h]
  rwa [← Nat.xor_assoc, Nat.xor_self, Nat.zero_xor] at h2

lemma xor_salt_cancel {a b c g : Nat} (h : a ^^^ (b ^^^ g) ^^^ (c ^^^ g) = a) : b = c := by
  rw [Nat.xor_assoc, xor_mix] at h
  exact Nat.xor_eq_zero.mp (xor_eq_self_imp h)

lemma fsRead_fsWrite_self (fs : FS) (p : String) (c : List Nat) :
    fsRead (fsWrite fs p c) p = some c := by
  simp [fsRead, fsWrite, List.lookup]

lemma fsRead_fsWrite_ne (fs : FS) (p q : String) (c : List Nat) (h : q ≠ p) :
    fsRead (fsWrite fs p c) q = fsRead fs q := by
  simp [fsRead, fsWrite, List.lookup, beq_eq_false_iff_ne.mpr h]

lemma encryptFile_cases (fs : FS) (inp key outp : String) (salt : Nat) (wf : Bool) :
    encryptFile fs inp key outp salt wf = none
    ∨ ∃ ct, encryptFile fs inp key outp salt wf = some (fsWrite fs outp ct) := by
  unfold encryptFile
  rcases fsRead fs inp with _ | d
  · exact Or.inl rfl
  · cases wf
    · exact Or.inr ⟨_, rfl⟩
    · exact Or.inl rfl

lemma decryptFile_cases (fs : FS) (inp key outp : String) (wf : Bool) :
    decryptFile fs inp key outp wf = none
    ∨ ∃ pt, decryptFile fs inp key outp wf = some (fsWrite fs outp pt) := by
  unfold decryptFile
  rcases fsRead fs inp with _ | d
  · exact Or.inl rfl
  · cases wf
    · exact Or.inr ⟨_, rfl⟩
    · exact Or.inl rfl

/-- C1: for every plaintext byte string, key string and salt, decrypting the
result of encrypting under the same key yields exactly the plaintext; the
salt is embedded in the ciphertext, so decryption takes no salt parameter. -/
theorem decrypt_encrypt_roundtrip (data : List Nat) (key : String) (salt : Nat) :
    aesDecrypt (aesEncrypt data (keyBytes key) salt) (keyBytes key) = data :=
  aes_roundtrip data (keyBytes key) salt

/-- C2: whenever the read or the write of an encrypt or decrypt invocation
throws, the process prints a diagnostic trace and a human-readable failure
line to the error stream and still exits with code 0. -/
theorem transform_io_error_exit_zero (inp : String) (optOutput optKey : Option String)
    (fs : FS) (salt : Nat) (writeFails : Bool)
    (h : fsRead fs inp = none ∨ writeFails = true) :
    ((runApp ["encrypt", inp] optOutput optKey fs salt writeFails).events
        = [(StreamTag.stderr, Msg.traceMsg), (StreamTag.stderr, Msg.failEncrypt inp)]
      ∧ (runApp ["encrypt", inp] optOutput optKey fs salt writeFails).exitCode = 0)
    ∧ ((runApp ["decrypt", inp] optOutput optKey fs salt writeFails).events
        = [(StreamTag.stderr, Msg.traceMsg), (StreamTag.stderr, Msg.failDecrypt inp)]
      ∧ (runApp ["decrypt", inp] optOutput optKey fs salt writeFails).exitCode = 0) := by
  rcases h with hr | hw
  · simp [runApp, encryptFile, decryptFile, hr]
  · subst hw
    rcases hr2 : fsRead fs inp with _ | d <;>
      simp [runApp, encryptFile, decryptFile, hr2]

theorem transform_io_error_exit_zero_witness :
    ((runApp ["encrypt", "missing.txt"] none none [] 0 false).events
        = [(StreamTag.stderr, Msg.traceMsg), (StreamTag.stderr, Msg.failEncrypt "missing.txt")]
      ∧ (runApp ["encrypt", "missing.txt"] none none [] 0 false).exitCode = 0)
    ∧ ((runApp ["decrypt", "missing.txt"] none none [] 0 false).events
        = [(StreamTag.stderr, Msg.traceMsg), (StreamTag.stderr, Msg.failDecrypt "missing.txt")]
      ∧ (runApp ["decrypt", "missing.txt"] none none [] 0 false).exitCode = 0) :=
  transform_io_error_exit_zero "missing.txt" none none [] 0 false (Or.inl rfl)

/-- C3: decrypting with a different key than the one used to encrypt does not
return the original plaintext ("hello" under key "k1", decrypted under "k2"),
and the dispatcher treats the run as an ordinary success (exit code 0,
success message): no integrity error is distinguishable. -/
theorem wrong_key_decrypt_not_plaintext (salt salt2 : Nat) :
    aesDecrypt (aesEncrypt [104, 101, 108, 108, 111] (keyBytes "k1") salt) (keyBytes "k2")
        ≠ [104, 101, 108, 108, 111]
    ∧ (runApp ["decrypt", "c.enc"] none (some "k2")
          [("c.enc", aesEncrypt [104, 101, 108, 108, 111] (keyBytes "k1") salt)] salt2
          false).exitCode = 0
    ∧ (runApp ["decrypt", "c.enc"] none (some "k2")
          [("c.enc", aesEncrypt [104, 101, 108, 108, 111] (keyBytes "k1") salt)] salt2
          false).events
        = [(StreamTag.stdout, Msg.successDecrypt "c.enc" "c.enc.txt")] := by
  refine ⟨?_, ?_, ?_⟩
  · rw [show keyBytes "k1" = [107, 49] from rfl, show keyBytes "k2" = [107, 50] from rfl]
    intro h
    simp [aesDecrypt, aesEncrypt, keystream, saltBytes, streamByte, byteHash,
      List.range_succ] at h
    exact absurd (xor_salt_cancel h.1) (by decide)
  · simp [runApp, decryptFile, fsRead, fsWrite, List.lookup]
  · simp [runApp, decryptFile, fsRead, fsWrite, List.lookup]

/-- C4: every invocation whose positional count is not exactly 2 prints the
usage text to standard output, exits with code 1, and does nothing else. -/
theorem bad_positional_count_usage_exit_one (pos : List String)
    (optOutput optKey : Option String) (fs : FS) (salt : Nat) (writeFails : Bool)
    (h : pos.length ≠ 2) :
    runApp pos optOutput optKey fs salt writeFails
      = ⟨fs, [(StreamTag.stdout, Msg.usageMsg)], 1, [], []⟩ := by
  rcases pos with _ | ⟨a, _ | ⟨b, _ | ⟨c, rest⟩⟩⟩
  · rfl
  · rfl
  · exact absurd rfl h
  · rfl

theorem bad_positional_count_usage_exit_one_witness :
    runApp ["encrypt"] none none [] 0 false
      = ⟨[], [(StreamTag.stdout, Msg.usageMsg)], 1, [], []⟩ :=
  bad_positional_count_usage_exit_one ["encrypt"] none none [] 0 false (by decide)

/-- C5: with no output option, encrypt writes its result to the input path
with ".enc" appended and reports that path, and decrypt writes its result to
the input path with ".txt" appended and reports that path. -/
theorem default_output_paths (inp : String) (optKey : Option String) (fs : FS)
    (salt : Nat) (data : List Nat) (hr : fsRead fs inp = some data) :
    (fsRead (runApp ["encrypt", inp] none optKey fs salt false).fs (inp ++ ".enc")
        = some (aesEncrypt data (keyBytes (optKey.getD "mySecretKey")) salt)
      ∧ (runApp ["encrypt", inp] none optKey fs salt false).events
        = [(StreamTag.stdout, Msg.successEncrypt inp (inp ++ ".enc"))])
    ∧ (fsRead (runApp ["decrypt", inp] none optKey fs salt false).fs (inp ++ ".txt")
        = some (aesDecrypt data (keyBytes (optKey.getD "mySecretKey")))
      ∧ (runApp ["decrypt", inp] none optKey fs salt false).events
        = [(StreamTag.stdout, Msg.successDecrypt inp (inp ++ ".txt"))]) := by
  refine ⟨⟨?_, ?_⟩, ⟨?_, ?_⟩⟩ <;>
    simp [runApp, encryptFile, decryptFile, hr, fsRead_fsWrite_self]

theorem default_output_paths_witness :
    (fsRead (runApp ["encrypt", "a.txt"] none none [("a.txt", [104])] 0 false).fs
        ("a.txt" ++ ".enc")
        = some (aesEncrypt [104] (keyBytes ((none : Option String).getD "mySecretKey")) 0)
      ∧ (runApp ["encrypt", "a.txt"] none none [("a.txt", [104])] 0 false).events
        = [(StreamTag.stdout, Msg.successEncrypt "a.txt" ("a.txt" ++ ".enc"))])
    ∧ (fsRead (runApp ["decrypt", "a.txt"] none none [("a.txt", [104])] 0 false).fs
        ("a.txt" ++ ".txt")
        = some (aesDecrypt [104] (keyBytes ((none : Option String).getD "mySecretKey")))
      ∧ (runApp ["decrypt", "a.txt"] none none [("a.txt", [104])] 0 false).events
        = [(StreamTag.stdout, Msg.successDecrypt "a.txt" ("a.txt" ++ ".txt"))]) :=
  default_output_paths "a.txt" none [("a.txt", [104])] 0 [104] (by simp [fsRead, List.lookup])

/-- C6: when the key option is omitted, encrypt and decrypt both use the same
fixed default key, so an encrypt with no key followed by a decrypt with no
key recovers the original file contents at the default output path. -/
theorem default_key_consistent_roundtrip (inp : String) (fs : FS) (salt salt2 : Nat)
    (data : List Nat) (hr : fsRead fs inp = some data) :
    fsRead (runApp ["decrypt", inp ++ ".enc"] none none
        (runApp ["encrypt", inp] none none fs salt false).fs salt2 false).fs
      (inp ++ ".enc" ++ ".txt") = some data := by
  simp [runApp, encryptFile, decryptFile, hr, fsRead_fsWrite_self, aes_roundtrip]

theorem default_key_consistent_roundtrip_witness :
    fsRead (runApp ["decrypt", "a.txt" ++ ".enc"] none none
        (runApp ["encrypt", "a.txt"] none none [("a.txt", [104, 105])] 7 false).fs 9 false).fs
      ("a.txt" ++ ".enc" ++ ".txt") = some [104, 105] :=
  default_key_consistent_roundtrip "a.txt" [("a.txt", [104, 105])] 7 9 [104, 105]
    (by simp [fsRead, List.lookup])

/-- C7: an invocation with two positionals whose action is neither "encrypt"
nor "decrypt" prints the unknown-action message followed by the usage text to
standard output, attempts no filesystem read, changes no file, and exits with
code 0. -/
theorem unknown_action_no_filesystem (a inp : String) (optOutput optKey : Option String)
    (fs : FS) (salt : Nat) (writeFails : Bool)
    (h1 : a ≠ "encrypt") (h2 : a ≠ "decrypt") :
    runApp [a, inp] optOutput optKey fs salt writeFails
      = ⟨fs, [(StreamTag.stdout, Msg.unknownAction a), (StreamTag.stdout, Msg.usageMsg)],
          0, [], []⟩ := by
  simp [runApp, h1, h2]

theorem unknown_action_no_filesystem_witness :
    runApp ["foo", "a.txt"] none none [] 0 false
      = ⟨[], [(StreamTag.stdout, Msg.unknownAction "foo"), (StreamTag.stdout, Msg.usageMsg)],
          0, [], []⟩ :=
  unknown_action_no_filesystem "foo" "a.txt" none none [] 0 false (by decide) (by decide)

/-- C8: every invocation performs at most one of the two file operations,
performs exactly the matching one when the action is "encrypt" or "decrypt"
with two positionals, and touches no file other than (possibly) one output
path. -/
theorem single_operation_invariant (pos : List String) (optOutput optKey : Option String)
    (fs : FS) (salt : Nat) (writeFails : Bool) :
    (runApp pos optOutput optKey fs salt writeFails).ops.length ≤ 1
    ∧ (∀ inp, pos = ["encrypt", inp] →
        (runApp pos optOutput optKey fs salt writeFails).ops = [OpKind.encryptOp])
    ∧ (∀ inp, pos = ["decrypt", inp] →
        (runApp pos optOutput optKey fs salt writeFails).ops = [OpKind.decryptOp])
    ∧ ∃ p, ∀ q, q ≠ p →
        fsRead (runApp pos optOutput optKey fs salt writeFails).fs q = fsRead fs q := by
  rcases pos with _ | ⟨a, _ | ⟨b, _ | ⟨c, rest⟩⟩⟩
  · exact ⟨by simp [runApp], fun inp h => by simp at h, fun inp h => by simp at h,
      ⟨"", fun q hq => rfl⟩⟩
  · exact ⟨by simp [runApp], fun inp h => by simp at h, fun inp h => by simp at h,
      ⟨"", fun q hq => rfl⟩⟩
  · by_cases ha : a = "encrypt"
    · subst ha
      rcases encryptFile_cases fs b (optKey.getD "mySecretKey")
          (optOutput.getD (b ++ ".enc")) salt writeFails with hres | ⟨ct, hres⟩
      · refine ⟨by simp [runApp, hres], fun inp h => ?_, fun inp h => by simp at h,
          ⟨optOutput.getD (b ++ ".enc"), fun q hq => by simp [runApp, hres]⟩⟩
        have hb : b = inp := by simpa using h
        subst hb
        simp [runApp, hres]
      · refine ⟨by simp [runApp, hres], fun inp h => ?_, fun inp h => by simp at h,
          ⟨optOutput.getD (b ++ ".enc"),
            fun q hq => by simp [runApp, hres, fsRead_fsWrite_ne _ _ _ _ hq]⟩⟩
        have hb : b = inp := by simpa using h
        subst hb
        simp [runApp, hres]
    · by_cases hd : a = "decrypt"
      · subst hd
        rcases decryptFile_cases fs b (optKey.getD "mySecretKey")
            (optOutput.getD (b ++ ".txt")) writeFails with hres | ⟨pt, hres⟩
        · refine ⟨by simp [runApp, hres], fun inp h => by simp at h, fun inp h => ?_,
            ⟨optOutput.getD (b ++ ".txt"), fun q hq => by simp [runApp, hres]⟩⟩
          have hb : b = inp := by simpa using h
          subst hb
          simp [runApp, hres]
        · refine ⟨by simp [runApp, hres], fun inp h => by simp at h, fun inp h => ?_,
            ⟨optOutput.getD (b ++ ".txt"),
              fun q hq => by simp [runApp, hres, fsRead_fsWrite_ne _ _ _ _ hq]⟩⟩
          have hb : b = inp := by simpa using h
          subst hb
          simp [runApp, hres]
      · refine ⟨by simp [runApp, ha, hd], fun inp h => ?_, fun inp h => ?_,
          ⟨"", fun q hq => by simp [runApp, ha, hd]⟩⟩
        · obtain ⟨h1, h2⟩ : a = "encrypt" ∧ b = inp := by simpa using h
          exact absurd h1 ha
        · obtain ⟨h1, h2⟩ : a = "decrypt" ∧ b = inp := by simpa using h
          exact absurd h1 hd
  · exact ⟨by simp [runApp], fun inp h => by simp at h, fun inp h => by simp at h,
      ⟨"", fun q hq => rfl⟩⟩

theorem single_operation_invariant_witness :
    (runApp ["encrypt", "a.txt"] none none [("a.txt", [104])] 0 false).ops
      = [OpKind.encryptOp] :=
  (single_operation_invariant ["encrypt", "a.txt"] none none
    [("a.txt", [104])] 0 false).2.1 "a.txt" rfl

/-- C9: when reading the input file throws, the write is never reached, so a
failed encrypt or decrypt invocation leaves the entire filesystem unchanged
(in particular the output path is neither created nor modified). -/
theorem failed_read_writes_nothing (inp : String) (optOutput optKey : Option String)
    (fs : FS) (salt : Nat) (h : fsRead fs inp = none) :
    (runApp ["encrypt", inp] optOutput optKey fs salt false).fs = fs
    ∧ (runApp ["decrypt", inp] optOutput optKey fs salt false).fs = fs := by
  constructor <;> simp [runApp, encryptFile, decryptFile, h]

theorem failed_read_writes_nothing_witness :
    (runApp ["encrypt", "missing.txt"] none none [] 0 false).fs = []
    ∧ (runApp ["decrypt", "missing.txt"] none none [] 0 false).fs = [] :=
  failed_read_writes_nothing "missing.txt" none none [] 0 rfl

/-- C10: the input file is only read, never written: whenever the output path
differs from the input path, the input file's contents are unchanged by both
the encrypt and the decrypt invocation. -/
theorem input_file_preserved (inp : String) (optOutput optKey : Option String)
    (fs : FS) (salt : Nat) (writeFails : Bool)
    (h1 : optOutput.getD (inp ++ ".enc") ≠ inp) (h2 : optOutput.getD (inp ++ ".txt") ≠ inp) :
    fsRead (runApp ["encrypt", inp] optOutput optKey fs salt writeFails).fs inp = fsRead fs inp
    ∧ fsRead (runApp ["decrypt", inp] optOutput optKey fs salt writeFails).fs inp
      = fsRead fs inp := by
  constructor
  · rcases encryptFile_cases fs inp (optKey.getD "mySecretKey")
        (optOutput.getD (inp ++ ".enc")) salt writeFails with hres | ⟨ct, hres⟩ <;>
      simp [runApp, hres, fsRead_fsWrite_ne _ _ _ _ (Ne.symm h1)]
  · rcases decryptFile_cases fs inp (optKey.getD "mySecretKey")
        (optOutput.getD (inp ++ ".txt")) writeFails with hres | ⟨pt, hres⟩ <;>
      simp [runApp, hres, fsRead_fsWrite_ne _ _ _ _ (Ne.symm h2)]

theorem input_file_preserved_witness :
    fsRead (runApp ["encrypt", "a.txt"] none none [("a.txt", [104])] 0 false).fs "a.txt"
      = fsRead [("a.txt", [104])] "a.txt"
    ∧ fsRead (runApp ["decrypt", "a.txt"] none none [("a.txt", [104])] 0 false).fs "a.txt"
      = fsRead [("a.txt", [104])] "a.txt" :=
  input_file_preserved "a.txt" none none [("a.txt", [104])] 0 false (by decide) (by decide)

end CryptoCli
